import Mathlib

/-!
Verification development for the entity-resolution and scoring core of a
WhatsApp → Home Assistant bridge.  The JavaScript source is embedded
shallowly: strings are Lean `String`s manipulated through their character
lists, JS numbers on the resolution path are rationals (the IDF builder,
which genuinely computes a base-2 logarithm, is modelled over `ℝ`), JS
`null`/`undefined` become `Option`, and the ambient module state (registry
snapshot, alias table, per-user last entity) is passed explicitly.
-/

/-! ## Character and string helpers (JS primitive operations) -/

/-- JS `String.prototype.toLowerCase` on the character list (ASCII range;
the corpus and queries of this system are ASCII). -/
def jsLower (s : String) : String := String.mk (s.data.map Char.toLower)

/-- JS `\s` character class, restricted to the whitespace characters that
occur in chat text. -/
def isWsChar (c : Char) : Bool :=
  c = ' ' || c = '\t' || c = '\n' || c = '\r' || c = '\x0c' || c = '\x0b'

def dropWsRun (cs : List Char) : List Char := cs.dropWhile isWsChar

/-- JS `String.prototype.trim`. -/
def jsTrim (s : String) : String :=
  String.mk (((s.data.dropWhile isWsChar).reverse.dropWhile isWsChar).reverse)

def isPrefixCh : List Char → List Char → Bool
  | [], _ => true
  | _ :: _, [] => false
  | a :: as, b :: bs => a = b && isPrefixCh as bs

/-- JS `String.prototype.includes` (substring containment). -/
def isInfixCh (needle : List Char) : List Char → Bool
  | [] => needle.isEmpty
  | c :: rest => isPrefixCh needle (c :: rest) || isInfixCh needle rest

def jsIncludes (hay sub : String) : Bool := isInfixCh sub.data hay.data

/-- JS `String.prototype.startsWith`. -/
def jsStartsWith (s pre : String) : Bool := isPrefixCh pre.data s.data

/-- Code-point comparison of character lists; models the ordering produced
by `a.name.localeCompare(b.name)` in the sort comparator. -/
def chLt : List Char → List Char → Bool
  | [], [] => false
  | [], _ :: _ => true
  | _ :: _, [] => false
  | a :: as, b :: bs =>
    if a.toNat < b.toNat then true
    else if b.toNat < a.toNat then false
    else chLt as bs

def nameLe (a b : String) : Bool := !(chLt b.data a.data)

/-- Splits a character list on maximal runs of characters failing `keep`,
dropping empty pieces — the effect of `split(/[^a-z0-9]+/)` followed by a
truthiness filter. -/
def splitRuns (keep : Char → Bool) : List Char → List Char → List (List Char)
  | [], cur => if cur.isEmpty then [] else [cur.reverse]
  | c :: rest, cur =>
    if keep c then splitRuns keep rest (c :: cur)
    else if cur.isEmpty then splitRuns keep rest []
    else cur.reverse :: splitRuns keep rest []

def isAlnumLower (c : Char) : Bool :=
  ('a' ≤ c && c ≤ 'z') || ('0' ≤ c && c ≤ '9')

/-- JS `replace(/\s+/g, " ")`: collapse every whitespace run to one space.
The boolean records whether the previous character was whitespace. -/
def collapseWsCh : List Char → Bool → List Char
  | [], _ => []
  | c :: rest, inRun =>
    if isWsChar c then
      if inRun then collapseWsCh rest true else ' ' :: collapseWsCh rest true
    else c :: collapseWsCh rest false

def collapseWs (s : String) : String := String.mk (collapseWsCh s.data false)

/-- JS `split(".")` on a string. -/
def splitDotsCh : List Char → List Char → List (List Char)
  | [], cur => [cur.reverse]
  | c :: rest, cur =>
    if c = '.' then cur.reverse :: splitDotsCh rest []
    else splitDotsCh rest (c :: cur)

/-! ## constants.js -/

def SHORT_TOKEN_WHITELIST : List String := ["ac", "tv", "ir", "fan", "led", "pir"]

def STOP_WORDS : List String :=
  ["the", "and", "for", "are", "but", "not", "you", "all", "can", "her",
   "was", "one", "our", "out", "has", "get", "set", "its", "how", "did",
   "let", "say", "she", "too", "use", "way", "who", "may", "any", "new",
   "now", "old", "see", "also", "back", "been", "call", "come", "each",
   "find", "from", "give", "have", "here", "just", "know", "like", "look",
   "make", "many", "more", "most", "much", "must", "name", "only", "over",
   "show", "some", "take", "tell", "than", "that", "them", "then", "they",
   "this", "time", "turn", "very", "want", "well", "went", "what", "when",
   "will", "with", "would", "about", "after", "could", "every", "first",
   "found", "great", "where", "which", "their", "there", "these", "thing",
   "think", "those", "being", "other", "should", "please", "switch"]

/-- Function `tokenizeForMatch` from constants.js: lowercase, split on runs of
non-alphanumerics, keep tokens of length ≥ 3 or whitelisted short tokens. -/
def tokenizeForMatch (text : String) : List String :=
  ((splitRuns isAlnumLower (jsLower text).data []).map String.mk).filter
    (fun token => 3 ≤ token.length || SHORT_TOKEN_WHITELIST.contains token)

/-! ## Data model: entities and the registry snapshot (haContext.js) -/

structure Entity where
  entity_id : String
  domain : String
  name : String
  /-- A `null` area is modelled as `""`; the code only ever reads
  `entity.area || ""`. -/
  area : String
  state : String
  supportsBrightness : Bool
  normalized : String
deriving DecidableEq, Repr

/-- The registry snapshot consumed by the resolver.  `tokenIdf` is the
token-weight table field of the ambient `haContext`; its values are JS
numbers, modelled as rationals on the resolution path. -/
structure HaContext where
  entities : List Entity
  searchIndex : List Entity
  tokenIdf : String → Option ℚ

/-- Function `getEntityById` (haContext.js): `entityMap.get(id) || null`, with the
map built from `entities`, later duplicate keys overwriting earlier ones. -/
def getEntityById (ctx : HaContext) (entityId : String) : Option Entity :=
  (ctx.entities.filter (fun e => e.entity_id = entityId)).getLast?

/-! ## Alias table (resolver.js) -/

/-- The loaded alias document: insertion-ordered key/value pairs of a JS
`Map`; `Map.get` returns the value of the last insertion of a key. -/
def aliasGet (aliases : List (String × String)) (k : String) : Option String :=
  ((aliases.filter (fun p => p.1 = k)).getLast?).map Prod.snd

/-- Function `resolveAlias`: lowercase and trim the phrase, reject the empty phrase,
then `aliases.get(normalized) || null` (a falsy — empty — value also maps
to `null`). -/
def resolveAlias (aliases : List (String × String)) (text : String) : Option String :=
  let normalized := jsTrim (jsLower text)
  if normalized = "" then none
  else
    match aliasGet aliases normalized with
    | some v => if v = "" then none else some v
    | none => none

/-! ## Scoring engine (resolver.js `scoreEntity`) -/

structure ScoreOpts where
  preferredDomains : List String
  tokenIdf : String → Option ℚ

/-- Lookup `tokenIdf?.get(token) || 1`: a missing — or falsy, i.e. zero — weight
defaults to 1. -/
def idfLookup (tokenIdf : String → Option ℚ) (token : String) : ℚ :=
  match tokenIdf token with
  | some w => if w = 0 then 1 else w
  | none => 1

structure TokenStats where
  score : ℚ
  nameMatchCount : ℕ
  consecutive : ℕ
  maxConsecutive : ℕ
deriving DecidableEq, Repr

/-- One iteration of the `for (const token of tokens)` loop of
`scoreEntity`: area hit +5·idf; name hit +3·idf and run bookkeeping;
id-only hit (name miss) +1·idf and run reset. -/
def tokenStep (nameTokens idTokens areaTokens : List String)
    (tokenIdf : String → Option ℚ) (st : TokenStats) (token : String) : TokenStats :=
  let idf := idfLookup tokenIdf token
  let st1 := if areaTokens.contains token then { st with score := st.score + 5 * idf } else st
  if nameTokens.contains token then
    let consecutive := st1.consecutive + 1
    { score := st1.score + 3 * idf, nameMatchCount := st1.nameMatchCount + 1,
      consecutive := consecutive, maxConsecutive := max st1.maxConsecutive consecutive }
  else
    let st2 := { st1 with consecutive := 0 }
    if idTokens.contains token then { st2 with score := st2.score + 1 * idf } else st2

def tokenLoop (nameTokens idTokens areaTokens : List String)
    (tokenIdf : String → Option ℚ) (tokens : List String) : TokenStats :=
  tokens.foldl (tokenStep nameTokens idTokens areaTokens tokenIdf) ⟨0, 0, 0, 0⟩

/-- Source `entity_id.split(".").slice(1).join(".").replace(/_/g, " ")`. -/
def entityIdSuffix (entityId : String) : String :=
  let joined := String.intercalate "." (((splitDotsCh entityId.data []).map String.mk).drop 1)
  String.mk (joined.data.map (fun c => if c = '_' then ' ' else c))

/-- Signal 8 of `scoreEntity`: `(nameMatchCount / nameTokens.length) * 5`
when the name has tokens and at least one matched. -/
def completenessBonus (nameTokensLen nameMatchCount : ℕ) : ℚ :=
  if 0 < nameTokensLen ∧ 0 < nameMatchCount then
    ((nameMatchCount : ℚ) / (nameTokensLen : ℚ)) * 5
  else 0

def scoreEntity (entity : Entity) (tokens : List String) (opts : ScoreOpts) : ℚ :=
  let friendlyName := jsLower entity.name
  let idSuffix := entityIdSuffix entity.entity_id
  let areaLower := jsLower entity.area
  let queryJoined := String.intercalate " " tokens
  let exactName : ℚ := if friendlyName = queryJoined then 100 else 0
  let exactSuffix : ℚ := if idSuffix = collapseWs queryJoined then 80 else 0
  let nameTokens := tokenizeForMatch friendlyName
  let idTokens := tokenizeForMatch entity.entity_id
  let areaTokens := tokenizeForMatch areaLower
  let st := tokenLoop nameTokens idTokens areaTokens opts.tokenIdf tokens
  let runBonus : ℚ := if 2 ≤ st.maxConsecutive then (st.maxConsecutive : ℚ) * 2 else 0
  let domainBonus : ℚ := if opts.preferredDomains.contains entity.domain then 2 else 0
  exactName + exactSuffix + st.score + runBonus + domainBonus
    + completenessBonus nameTokens.length st.nameMatchCount

/-- All signals of `scoreEntity` except the completeness bonus; the full
score is this base plus the bonus. -/
def scoreEntityBase (entity : Entity) (tokens : List String) (opts : ScoreOpts) : ℚ :=
  let friendlyName := jsLower entity.name
  let idSuffix := entityIdSuffix entity.entity_id
  let areaLower := jsLower entity.area
  let queryJoined := String.intercalate " " tokens
  let exactName : ℚ := if friendlyName = queryJoined then 100 else 0
  let exactSuffix : ℚ := if idSuffix = collapseWs queryJoined then 80 else 0
  let nameTokens := tokenizeForMatch friendlyName
  let idTokens := tokenizeForMatch entity.entity_id
  let areaTokens := tokenizeForMatch areaLower
  let st := tokenLoop nameTokens idTokens areaTokens opts.tokenIdf tokens
  let runBonus : ℚ := if 2 ≤ st.maxConsecutive then (st.maxConsecutive : ℚ) * 2 else 0
  let domainBonus : ℚ := if opts.preferredDomains.contains entity.domain then 2 else 0
  exactName + exactSuffix + st.score + runBonus + domainBonus

/-- The `nameMatchCount` accumulated by the token loop of `scoreEntity`. -/
def nameMatchCountOf (entity : Entity) (tokens : List String)
    (tokenIdf : String → Option ℚ) : ℕ :=
  (tokenLoop (tokenizeForMatch (jsLower entity.name)) (tokenizeForMatch entity.entity_id)
    (tokenizeForMatch (jsLower entity.area)) tokenIdf tokens).nameMatchCount

/-! ## Candidate search (resolver.js `findEntityCandidates`) -/

structure Candidate where
  entity : Entity
  score : ℚ
deriving DecidableEq, Repr

/-- The order realised by `sort((a, b) => b.score - a.score ||
a.name.localeCompare(b.name))`: descending score, ties by ascending name. -/
def candOrder (a b : Candidate) : Prop :=
  b.score < a.score ∨ (a.score = b.score ∧ nameLe a.entity.name b.entity.name = true)

instance : DecidableRel candOrder := fun a b => by
  unfold candOrder; infer_instance


theorem char_eq_of_toNat_eq {c d : Char} (h : c.toNat = d.toNat) : c = d := by
  apply Char.ext
  unfold Char.toNat at h
  exact UInt32.toNat.inj h

theorem chLt_asymm (a b : List Char) (h : chLt a b = true) : chLt b a = false := by
  induction a generalizing b with
  | nil =>
    cases b with
    | nil => simp [chLt] at h
    | cons d ds => simp [chLt]
  | cons c cs ih =>
    cases b with
    | nil => simp [chLt] at h
    | cons d ds =>
      by_cases hcd : c.toNat < d.toNat
      · have hdc : ¬ d.toNat < c.toNat := by omega
        simp [chLt, hcd, hdc]
      · by_cases hdc : d.toNat < c.toNat
        · simp [chLt, hcd, hdc] at h
        · simp [chLt, hcd, hdc] at h ⊢
          exact ih ds h

theorem chLt_connex (a b : List Char) (hab : chLt a b = false)
    (hba : chLt b a = false) : a = b := by
  induction a generalizing b with
  | nil =>
    cases b with
    | nil => rfl
    | cons d ds => simp [chLt] at hab
  | cons c cs ih =>
    cases b with
    | nil => simp [chLt] at hba
    | cons d ds =>
      by_cases hcd : c.toNat < d.toNat
      · simp [chLt, hcd] at hab
      · by_cases hdc : d.toNat < c.toNat
        · simp [chLt, hdc, hcd] at hba
        · have hc : c = d := char_eq_of_toNat_eq (by omega)
          subst hc
          simp [chLt, hcd, hdc] at hab hba
          rw [ih ds hab hba]

theorem chLt_trans (a b c : List Char) (hab : chLt a b = true)
    (hbc : chLt b c = true) : chLt a c = true := by
  induction a generalizing b c with
  | nil =>
    cases c with
    | nil =>
      cases b with
      | nil => simp [chLt] at hab
      | cons d ds => simp [chLt] at hbc
    | cons e es => simp [chLt]
  | cons x xs ih =>
    cases b with
    | nil => simp [chLt] at hab
    | cons y ys =>
      cases c with
      | nil => simp [chLt] at hbc
      | cons z zs =>
        by_cases hxy : x.toNat < y.toNat
        · by_cases hyz : y.toNat < z.toNat
          · have hxz : x.toNat < z.toNat := by omega
            simp [chLt, hxz]
          · by_cases hzy : z.toNat < y.toNat
            · simp [chLt, hyz, hzy] at hbc
            · have hy : y = z := char_eq_of_toNat_eq (by omega)
              subst hy
              simp [chLt, hxy]
        · by_cases hyx : y.toNat < x.toNat
          · simp [chLt, hxy, hyx] at hab
          · have hx : x = y := char_eq_of_toNat_eq (by omega)
            subst hx
            simp [chLt, hxy, hyx] at hab
            by_cases hxz : x.toNat < z.toNat
            · simp [chLt, hxz]
            · by_cases hzx : z.toNat < x.toNat
              · simp [chLt, hxz, hzx] at hbc
              · simp [chLt, hxz, hzx] at hbc ⊢
                exact ih ys zs hab hbc

theorem nameLe_total (a b : String) : nameLe a b = true ∨ nameLe b a = true := by
  unfold nameLe
  by_cases h : chLt b.data a.data = true
  · right; simp [chLt_asymm _ _ h]
  · left; simp only [Bool.not_eq_true] at h; simp [h]

theorem nameLe_trans (a b c : String) (hab : nameLe a b = true)
    (hbc : nameLe b c = true) : nameLe a c = true := by
  unfold nameLe at *
  simp only [Bool.not_eq_true'] at hab hbc ⊢
  by_contra hca
  simp only [Bool.not_eq_false] at hca
  by_cases hab' : chLt a.data b.data = true
  · have hcb : chLt c.data b.data = true := chLt_trans _ _ _ hca hab'
    rw [hcb] at hbc
    simp at hbc
  · simp only [Bool.not_eq_true] at hab'
    have heq : a.data = b.data := chLt_connex _ _ hab' hab
    rw [heq] at hca
    rw [hca] at hbc
    simp at hbc

instance : IsTotal Candidate candOrder := ⟨by
  intro a b
  rcases lt_trichotomy a.score b.score with h | h | h
  · right; left; exact h
  · rcases nameLe_total a.entity.name b.entity.name with hn | hn
    · left; right; exact ⟨h, hn⟩
    · right; right; exact ⟨h.symm, hn⟩
  · left; left; exact h⟩

instance : IsTrans Candidate candOrder := ⟨by
  intro a b c hab hbc
  rcases hab with h1 | ⟨h1, hn1⟩
  · rcases hbc with h2 | ⟨h2, hn2⟩
    · left; exact h2.trans h1
    · left; rw [← h2]; exact h1
  · rcases hbc with h2 | ⟨h2, hn2⟩
    · left; rw [h1]; exact h2
    · right; exact ⟨h1.trans h2, nameLe_trans _ _ _ hn1 hn2⟩⟩

/-- Query tokenization of `findEntityCandidates`: `tokenizeForMatch(text)`
with stop words removed. -/
def queryTokens (text : String) : List String :=
  (tokenizeForMatch text).filter (fun t => !STOP_WORDS.contains t)

/-- The scored, positivity-filtered, sorted candidate list of
`findEntityCandidates` (before deduplication and truncation).  JS
`Array.prototype.sort` with a consistent comparator yields the stable
sorted permutation, realised here by insertion sort. -/
def scoredList (ctx : HaContext) (tokens : List String)
    (preferredDomains : List String) : List Candidate :=
  List.insertionSort candOrder
    ((ctx.searchIndex.map
        (fun e => Candidate.mk e (scoreEntity e tokens ⟨preferredDomains, ctx.tokenIdf⟩))).filter
      (fun c => 0 < c.score))

/-- The `for (const item of scored)` deduplication loop: skip already-seen
entity ids, push, and break once the output reaches `limit` (the length
test happens after the push). -/
def dedupeTake (limit : ℕ) : List Candidate → List String → ℕ → List Candidate
  | [], _, _ => []
  | c :: rest, seen, len =>
    if seen.contains c.entity.entity_id then dedupeTake limit rest seen len
    else if limit ≤ len + 1 then [c]
    else c :: dedupeTake limit rest (c.entity.entity_id :: seen) (len + 1)

/-- Function `findEntityCandidates(text, limit, options)` from resolver.js. -/
def findEntityCandidates (ctx : HaContext) (text : String) (limit : ℕ)
    (preferredDomains : List String) : List Candidate :=
  if text = "" ∨ ctx.searchIndex = [] then []
  else if queryTokens text = [] then []
  else
    match dedupeTake limit (scoredList ctx (queryTokens text) preferredDomains) [] 0,
        queryTokens text with
    | [], [t] =>
      ((ctx.searchIndex.filter (fun e => jsIncludes e.entity_id t)).take limit).map
        (fun e => Candidate.mk e (1 / 2))
    | unique, _ => unique

/-! ## Entity selector (resolver.js `selectEntityId`) -/

structure SelectOpts where
  preferredDomains : List String
  limit : Option ℕ
  minScore : Option ℚ

/-- JS `x || d` for an optional numeric option: absent or falsy (zero)
falls back to the default. -/
def jsOrNat (x : Option ℕ) (d : ℕ) : ℕ :=
  match x with
  | some n => if n = 0 then d else n
  | none => d

def jsOrQ (x : Option ℚ) (d : ℚ) : ℚ :=
  match x with
  | some q => if q = 0 then d else q
  | none => d

/-- Function `selectEntityId`: alias lookup first (returned unconditionally when it
hits), otherwise top candidate above `minScore || 1`. -/
def selectEntityId (aliases : List (String × String)) (ctx : HaContext)
    (text : String) (opts : SelectOpts) : Option String :=
  match resolveAlias aliases text with
  | some hit => some hit
  | none =>
    match findEntityCandidates ctx text (jsOrNat opts.limit 5) opts.preferredDomains with
    | [] => none
    | best :: _ =>
      if jsOrQ opts.minScore 1 ≤ best.score then some best.entity.entity_id else none

/-! ## Conjunction splitter (resolver.js `splitConjunctionTargets`)

The separator regex `/(?:\s*,\s*(?:and\s+)?|\s+and\s+|\s*&\s*)/i` has no
empty match and no useful backtracking inside an alternative (each `\s` run
is maximal because the character after a maximal run can never restart the
failed literal), so it is modelled by trying the three alternatives in
order at each position, leftmost position first. -/

/-- Piece `and\s+` (case-insensitive), consuming the whitespace run. -/
def matchAndWs (cs : List Char) : Option (List Char) :=
  match cs with
  | a :: n :: d :: rest =>
    if a.toLower = 'a' ∧ n.toLower = 'n' ∧ d.toLower = 'd' then
      match rest with
      | c :: _ => if isWsChar c then some (dropWsRun rest) else none
      | [] => none
    else none
  | _ => none

/-- First alternative `\s*,\s*(?:and\s+)?`. -/
def matchCommaSep (cs : List Char) : Option (List Char) :=
  match dropWsRun cs with
  | ',' :: rest =>
    let r2 := dropWsRun rest
    match matchAndWs r2 with
    | some r3 => some r3
    | none => some r2
  | _ => none

/-- Second alternative `\s+and\s+`. -/
def matchWsAnd (cs : List Char) : Option (List Char) :=
  match cs with
  | c :: rest => if isWsChar c then matchAndWs (dropWsRun rest) else none
  | [] => none

/-- Third alternative `\s*&\s*`. -/
def matchAmp (cs : List Char) : Option (List Char) :=
  match dropWsRun cs with
  | '&' :: rest => some (dropWsRun rest)
  | _ => none

def matchSep (cs : List Char) : Option (List Char) :=
  match matchCommaSep cs with
  | some r => some r
  | none =>
    match matchWsAnd cs with
    | some r => some r
    | none => matchAmp cs

/-- Fuelled scan: at each position try the separator; on a hit emit the
piece gathered so far (reversed in `cur`) and continue after the match.
Every separator consumes at least one character, so `length + 1` fuel
always suffices and the fuel-exhaustion arm is unreachable. -/
def splitSepAux : ℕ → List Char → List Char → List (List Char)
  | _, [], cur => [cur.reverse]
  | 0, cs, cur => [cur.reverse ++ cs]
  | fuel + 1, c :: rest, cur =>
    match matchSep (c :: rest) with
    | some rem => cur.reverse :: splitSepAux fuel rem []
    | none => splitSepAux fuel rest (c :: cur)

/-- Function `splitConjunctionTargets`: split on conjunctions, trim, drop empties. -/
def splitConjunctionTargets (text : String) : List String :=
  ((splitSepAux (text.length + 1) text.data []).map
      (fun cs => jsTrim (String.mk cs))).filter (fun s => s ≠ "")

/-! ## Direct on/off detector (resolver.js `detectDirectAliasCommand`) -/

structure DirectAction where
  service : String
  entity_id : String
  name : String
deriving DecidableEq, Repr

structure DirectResult where
  actions : List DirectAction
  successMessage : String
deriving DecidableEq, Repr

/-- The four command forms: leading literal and the service it maps to. -/
def directPatterns : List (String × String) :=
  [("turn on ", "turn_on"), ("turn off ", "turn_off"),
   ("switch on ", "turn_on"), ("switch off ", "turn_off")]

def directPreferredDomains : List String := ["light", "switch", "fan", "cover"]

/-- One iteration of the segment loop of `detectDirectAliasCommand`:
`selectEntityId` must produce a truthy id and `getEntityById` a live
entity, else the segment contributes nothing. -/
def resolveSegment (aliases : List (String × String)) (ctx : HaContext)
    (segment : String) : Option Entity :=
  match selectEntityId aliases ctx segment ⟨directPreferredDomains, some 5, none⟩ with
  | none => none
  | some eid => if eid = "" then none else getEntityById ctx eid

def directActions (aliases : List (String × String)) (ctx : HaContext)
    (segments : List String) (service : String) : List DirectAction :=
  segments.filterMap (fun seg =>
    (resolveSegment aliases ctx seg).map (fun e =>
      DirectAction.mk (e.domain ++ "." ++ service) e.entity_id e.name))

/-- The pattern loop: an unmatched or fully-unresolved pattern falls
through to the next; a partially resolved one aborts with `null`. -/
def directLoop (aliases : List (String × String)) (ctx : HaContext)
    (trimmed normalized : String) : List (String × String) → Option DirectResult
  | [] => none
  | p :: rest =>
    if jsStartsWith normalized p.1 then
      let targetRaw := jsTrim (String.mk (trimmed.data.drop p.1.length))
      let segments := splitConjunctionTargets targetRaw
      let actions := directActions aliases ctx segments p.2
      if actions = [] then directLoop aliases ctx trimmed normalized rest
      else if actions.length < segments.length then none
      else
        let verb := if p.2 = "turn_on" then "turned on" else "turned off"
        let names := String.intercalate ", " (actions.map DirectAction.name)
        some (DirectResult.mk actions (names ++ " " ++ verb ++ "."))
    else directLoop aliases ctx trimmed normalized rest

def detectDirectAliasCommand (aliases : List (String × String)) (ctx : HaContext)
    (text : String) : Option DirectResult :=
  let trimmed := jsTrim text
  directLoop aliases ctx trimmed (jsLower trimmed) directPatterns

/-! ## Brightness detector (resolver.js `detectBrightnessCommand`)

The three anchored patterns share the shape
`^VERB\s+(.+?)\s+to\s+(\d{1,3})(?:\s*%|\s*percent)?$`.  The lazy `(.+?)`
is realised by scanning boundaries left to right; `.` cannot cross a line
break.  A match in which the verb's `\s+` backtracks into the target can
only produce an all-whitespace target, which trims to `""`, tokenizes to
nothing and makes the detector body `continue` — observably identical to
treating the pattern as failed, which is how it is modelled. -/

def matchLiteral (lit cs : List Char) : Option (List Char) :=
  if isPrefixCh lit cs then some (cs.drop lit.length) else none

/-- Piece `\s+` with its maximal run. -/
def matchWsRun1 (cs : List Char) : Option (List Char) :=
  match cs with
  | c :: rest => if isWsChar c then some (dropWsRun rest) else none
  | [] => none

/-- Verb alternation followed by `\s+`; the verbs of one pattern are never
prefixes of a common text, so no cross-alternative backtracking exists. -/
def matchVerbs (verbs : List (List Char)) (cs : List Char) : Option (List Char) :=
  match verbs with
  | [] => none
  | v :: rest =>
    match matchLiteral v cs with
    | some r1 =>
      match matchWsRun1 r1 with
      | some r2 => some r2
      | none => matchVerbs rest cs
    | none => matchVerbs rest cs

def verbSetTurnSwitch (cs : List Char) : Option (List Char) :=
  matchVerbs ["set".data, "turn".data, "switch".data] cs

def verbSetBrightnessOf (cs : List Char) : Option (List Char) :=
  match matchLiteral "set".data cs with
  | some r1 =>
    match matchWsRun1 r1 with
    | some r2 =>
      match matchLiteral "brightness".data r2 with
      | some r3 =>
        match matchWsRun1 r3 with
        | some r4 =>
          match matchLiteral "of".data r4 with
          | some r5 => matchWsRun1 r5
          | none => none
        | none => none
      | none => none
    | none => none
  | none => none

def verbDimBrighten (cs : List Char) : Option (List Char) :=
  matchVerbs ["dim".data, "brighten".data] cs

def takeDigits (cs : List Char) : List Char := cs.takeWhile Char.isDigit

def dropDigits (cs : List Char) : List Char := cs.dropWhile Char.isDigit

/-- Piece `(?:\s*%|\s*percent)?$` (on lowered text). -/
def matchPercentEnd (cs : List Char) : Bool :=
  match cs with
  | [] => true
  | _ :: _ =>
    match dropWsRun cs with
    | '%' :: rest => rest.isEmpty
    | 'p' :: 'e' :: 'r' :: 'c' :: 'e' :: 'n' :: 't' :: rest => rest.isEmpty
    | _ => false

/-- Tail `\s+to\s+(\d{1,3})(?:\s*%|\s*percent)?$`, returning the digit capture.
A digit run longer than three, or shortened captures that leave a digit
behind, can never satisfy the anchored tail, so only the maximal run of at
most three digits is considered. -/
def parseToValueTail (cs : List Char) : Option (List Char) :=
  match cs with
  | c :: rest =>
    if isWsChar c then
      match dropWsRun rest with
      | 't' :: 'o' :: r2 =>
        match r2 with
        | c2 :: r3 =>
          if isWsChar c2 then
            let r4 := dropWsRun r3
            let digits := takeDigits r4
            if digits.length = 0 ∨ 3 < digits.length then none
            else if matchPercentEnd (dropDigits r4) then some digits else none
          else none
        | [] => none
      | _ => none
    else none
  | [] => none

/-- JS `parseInt` on a digit capture. -/
def digitsToNat : List Char → ℕ → ℕ
  | [], acc => acc
  | c :: rest, acc => digitsToNat rest (acc * 10 + (c.toNat - '0'.toNat))

/-- The lazy target scan: shortest non-empty target (accumulated reversed
in `acc`, never containing a line break) whose remainder parses as the
` to <value>` tail. -/
def lazyTargetScan (acc : List Char) : List Char → Option (String × ℕ)
  | c :: rest =>
    if c = '\n' ∨ c = '\r' then none
    else
      match parseToValueTail rest with
      | some digits => some (String.mk (c :: acc).reverse, digitsToNat digits 0)
      | none => lazyTargetScan (c :: acc) rest
  | [] => none

/-- One full pattern: verb part, then lazy target/value scan.  Returns the
raw (untrimmed) `match[1]` and the numeric value of `match[2]`. -/
def matchBrightnessPattern (verb : List Char → Option (List Char))
    (lowered : String) : Option (String × ℕ) :=
  match verb lowered.data with
  | some rest => lazyTargetScan [] rest
  | none => none

/-- Function `clampPercent` from resolver.js.  Its `Number.isNaN` guard cannot fire
for a value parsed from a 1–3-digit capture, so the clamp is total here. -/
def clampPercent (value : ℤ) : ℤ :=
  if value < 0 then 0 else if 100 < value then 100 else value

structure BrightAction where
  service : String
  entity_id : String
  brightness_pct : ℤ
  name : String
deriving DecidableEq, Repr

structure BrightResult where
  actions : List BrightAction
  successMessage : String
deriving DecidableEq, Repr

def fillerTokens : List String := ["all", "light", "lights", "lamp", "lamps"]

def pronounWords : List String := ["it", "this", "that", "them"]

/-- Lookup `lastId ? getEntityById(lastId) : null` for the caller-supplied
per-user last entity id. -/
def lastLightEntity (ctx : HaContext) (lastEntityId : Option String) : Option Entity :=
  match lastEntityId with
  | some lid => if lid = "" then none else getEntityById ctx lid
  | none => none

/-- Truthiness of the JS `entityId` binding (null or `""` is falsy). -/
def truthyId (x : Option String) : Bool :=
  match x with
  | some v => v ≠ ""
  | none => false

/-- Condition `!entityId || getEntityById(entityId)?.domain !== "light"`. -/
def pronounConditionHolds (ctx : HaContext) (e0 : Option String) : Bool :=
  !truthyId e0 ||
    (match e0 with
     | some v =>
       (match getEntityById ctx v with
        | some e => e.domain ≠ "light"
        | none => true)
     | none => true)

/-- One iteration of the segment loop of the non-group brightness path:
select, substitute the last-referenced light for a bare pronoun, then keep
the entity only if it exists and supports brightness; an untruthy id falls
back to the first dimmable light candidate. -/
def resolveBrightnessSegment (aliases : List (String × String)) (ctx : HaContext)
    (lastEntityId : Option String) (segment : String) : Option Entity :=
  let e0 := selectEntityId aliases ctx segment ⟨["light"], some 5, none⟩
  let entityId :=
    if pronounConditionHolds ctx e0 ∧ pronounWords.contains segment then
      match lastLightEntity ctx lastEntityId with
      | some le => if le.domain = "light" then some le.entity_id else e0
      | none => e0
    else e0
  if truthyId entityId then
    match entityId with
    | some eid =>
      match getEntityById ctx eid with
      | some e => if e.supportsBrightness then some e else none
      | none => none
    | none => none
  else
    ((findEntityCandidates ctx segment 5 ["light"]).find?
        (fun c => c.entity.domain = "light" ∧ c.entity.supportsBrightness)).map
      (fun c => c.entity)

/-- The group ("all") path: dimmable lights among the top-50 candidates
whose normalized text or lowered entity id contains every filter token. -/
def groupTargets (ctx : HaContext) (searchText : String)
    (filterToks : List String) : List Entity :=
  ((((findEntityCandidates ctx searchText 50 ["light"]).filter
        (fun c => c.entity.domain = "light" ∧ c.entity.supportsBrightness)).filter
      (fun c =>
        filterToks.isEmpty ||
          filterToks.all (fun t =>
            jsIncludes c.entity.normalized t ||
              jsIncludes (jsLower c.entity.entity_id) t))).map
    (fun c => c.entity))

/-- Function `dedupeEntities` from resolver.js (first occurrence of an id wins). -/
def dedupeEntities : List Entity → List String → List Entity
  | [], _ => []
  | e :: rest, seen =>
    if seen.contains e.entity_id then dedupeEntities rest seen
    else e :: dedupeEntities rest (e.entity_id :: seen)

/-- The target list gathered for one matched brightness pattern: the group
path when the raw tokens include "all", otherwise one resolution attempt
per conjunction segment. -/
def brightnessTargets (aliases : List (String × String)) (ctx : HaContext)
    (lastEntityId : Option String) (rawTarget : String) : List Entity :=
  let rawTokens := tokenizeForMatch rawTarget
  let filterToks := rawTokens.filter (fun t => !fillerTokens.contains t)
  let query := String.intercalate " " filterToks
  if rawTokens.contains "all" then
    groupTargets ctx (if query = "" then rawTarget else query) filterToks
  else
    (splitConjunctionTargets rawTarget).filterMap
      (resolveBrightnessSegment aliases ctx lastEntityId)

/-- The body of one pattern-loop iteration of `detectBrightnessCommand`
once its pattern has matched, capturing the `continue`/`return null`/
result trichotomy as `none` / `some none` / `some (some r)`. -/
def brightnessBody (aliases : List (String × String)) (ctx : HaContext)
    (lastEntityId : Option String) (target : String) (digitsVal : ℕ) :
    Option (Option BrightResult) :=
  let rawTarget := jsTrim target
  let value := clampPercent (digitsVal : ℤ)
  let isAllRequest := (tokenizeForMatch rawTarget).contains "all"
  let segments := splitConjunctionTargets rawTarget
  let targets := brightnessTargets aliases ctx lastEntityId rawTarget
  if isAllRequest = false ∧ 1 < segments.length ∧ targets.length < segments.length then
    some none
  else
    match (dedupeEntities targets []).filter (fun e => e.supportsBrightness) with
    | [] => none
    | d :: ds =>
      let dimmable := d :: ds
      let actions := dimmable.map (fun e =>
        BrightAction.mk "light.turn_on" e.entity_id value e.name)
      let summaryName :=
        if isAllRequest then
          toString dimmable.length ++ " light" ++
            (if 1 < dimmable.length then "s" else "")
        else if 1 < dimmable.length then
          String.intercalate ", " (dimmable.map Entity.name)
        else d.name
      some (some (BrightResult.mk actions
        (summaryName ++ " set to " ++ toString value ++ "%")))

/-- Outcome of one iteration of the pattern loop of
`detectBrightnessCommand`: `none` is `continue`, `some none` is
`return null` (the partial-resolution abort), `some (some r)` a result. -/
def tryBrightnessPattern (aliases : List (String × String)) (ctx : HaContext)
    (lastEntityId : Option String) (lowered : String)
    (verb : List Char → Option (List Char)) : Option (Option BrightResult) :=
  match matchBrightnessPattern verb lowered with
  | none => none
  | some (target, digitsVal) => brightnessBody aliases ctx lastEntityId target digitsVal

def brightnessVerbMatchers : List (List Char → Option (List Char)) :=
  [verbSetTurnSwitch, verbSetBrightnessOf, verbDimBrighten]

def brightnessLoop (aliases : List (String × String)) (ctx : HaContext)
    (lastEntityId : Option String) (lowered : String) :
    List (List Char → Option (List Char)) → Option BrightResult
  | [] => none
  | v :: rest =>
    match tryBrightnessPattern aliases ctx lastEntityId lowered v with
    | none => brightnessLoop aliases ctx lastEntityId lowered rest
    | some r => r

def detectBrightnessCommand (aliases : List (String × String)) (ctx : HaContext)
    (lastEntityId : Option String) (text : String) : Option BrightResult :=
  brightnessLoop aliases ctx lastEntityId (jsTrim (jsLower text)) brightnessVerbMatchers

/-! ## IDF table construction (haContext.js `buildTokenIdf`)

The builder computes `Math.log2`, so it is modelled over `ℝ`; the document
frequencies and the presence condition remain executable. -/

/-- Document frequency of a token: the number of search-index entities
whose normalized text tokenizes to a list containing it (the per-entity
`Set` of the source only deduplicates within one entity). -/
def docFreq (searchIndex : List Entity) (t : String) : ℕ :=
  (searchIndex.filter (fun e => (tokenizeForMatch e.normalized).contains t)).length

/-- The divisor `searchIndex.length || 1`. -/
def totalEntities (searchIndex : List Entity) : ℕ :=
  if searchIndex.length = 0 then 1 else searchIndex.length

/-- The stored weight
`Math.max(0.5, Math.min(Math.log2(totalEntities / count), 10))`. -/
noncomputable def idfWeight (searchIndex : List Entity) (t : String) : ℝ :=
  max (1 / 2)
    (min (Real.logb 2 ((totalEntities searchIndex : ℝ) / (docFreq searchIndex t : ℝ))) 10)

/-- Function `buildTokenIdf` (haContext.js): the table holds an entry for
exactly the tokens with non-zero document frequency. -/
noncomputable def buildTokenIdf (searchIndex : List Entity) (t : String) : Option ℝ :=
  if docFreq searchIndex t = 0 then none else some (idfWeight searchIndex t)

/-! ## Group-mode ("all") brightness helpers, named for the statements -/

/-- The dimmable, deduplicated target list of the group path for a raw
target phrase. -/
def groupDimmable (ctx : HaContext) (rawTarget : String) : List Entity :=
  let rawTokens := tokenizeForMatch rawTarget
  let filterToks := rawTokens.filter (fun t => !fillerTokens.contains t)
  let query := String.intercalate " " filterToks
  (dedupeEntities (groupTargets ctx (if query = "" then rawTarget else query) filterToks) []).filter
    (fun e => e.supportsBrightness)

/-- The action list the group path produces from a raw target and a
clamped value: one `light.turn_on` action per dimmable target. -/
def groupModeActions (ctx : HaContext) (rawTarget : String) (value : ℤ) : List BrightAction :=
  (groupDimmable ctx rawTarget).map
    (fun e => BrightAction.mk "light.turn_on" e.entity_id value e.name)

/-- The full group-path result including its success message. -/
def groupModeResult (ctx : HaContext) (rawTarget : String) (value : ℤ) : BrightResult :=
  let actions := groupModeActions ctx rawTarget value
  BrightResult.mk actions
    (toString actions.length ++ " light" ++ (if 1 < actions.length then "s" else "") ++
      " set to " ++ toString value ++ "%")

/-! ## Concrete instances used by witnesses and counterexamples -/

def couchEntity : Entity :=
  Entity.mk "light.couch" "light" "Couch Lamp" "" "on" true "couch lamp light.couch light"

def wallEntity : Entity :=
  Entity.mk "light.the_wall" "light" "Wall Lamp" "" "off" true "wall lamp light.the_wall light"

def demoAliases : List (String × String) := [("couch", "light.couch"), ("wall", "light.the_wall")]

def demoCtx : HaContext := HaContext.mk [couchEntity, wallEntity] [] (fun _ => none)

def partialAliases : List (String × String) := [("couch", "light.couch")]

def bravoEntity : Entity :=
  Entity.mk "light.bzzz" "light" "Bravo" "" "on" true "bravo light.bzzz light"

def alphaEntity : Entity :=
  Entity.mk "light.azzz" "light" "Alpha" "" "on" true "alpha light.azzz light"

def zzzCtx : HaContext :=
  HaContext.mk [bravoEntity, alphaEntity] [bravoEntity, alphaEntity] (fun _ => none)

def alphaBetaIndex : List Entity :=
  [Entity.mk "light.one" "light" "One" "" "on" true "alpha beta",
   Entity.mk "light.two" "light" "Two" "" "on" true "alpha"]

def kitchenEntity : Entity :=
  Entity.mk "light.kitchen" "light" "Kitchen" "" "on" true "kitchen light.kitchen light"

def kOne : Entity :=
  Entity.mk "light.kitchen_one" "light" "Kitchen One" "kitchen" "on" true
    "kitchen one light.kitchen_one kitchen light"

def kTwo : Entity :=
  Entity.mk "light.kitchen_two" "light" "Kitchen Two" "kitchen" "on" true
    "kitchen two light.kitchen_two kitchen light"

def kThree : Entity :=
  Entity.mk "light.kitchen_three" "light" "Kitchen Three" "kitchen" "on" true
    "kitchen three light.kitchen_three kitchen light"

def kSwitch : Entity :=
  Entity.mk "switch.kitchen_plug" "switch" "Kitchen Plug" "kitchen" "on" false
    "kitchen plug switch.kitchen_plug kitchen switch"

def kitchenCtx : HaContext :=
  HaContext.mk [kOne, kTwo, kThree, kSwitch] [kOne, kTwo, kThree, kSwitch] (fun _ => none)

def theWallCtx : HaContext := HaContext.mk [wallEntity] [wallEntity] (fun _ => none)

def ghostAliases : List (String × String) := [("ghost", "light.ghost")]

def emptyCtx : HaContext := HaContext.mk [] [] (fun _ => none)

/-! ## Theorems -/

/-- C1: whenever the alias table maps the lowercased, trimmed input phrase
to a (non-empty) entity id, `selectEntityId` returns exactly that id, for
every registry snapshot and every option set — the alias always takes
precedence over fuzzy scoring. -/
theorem selectEntityId_alias_precedence
    (aliases : List (String × String)) (ctx : HaContext) (text : String)
    (opts : SelectOpts) (eid : String)
    (h : aliasGet aliases (jsTrim (jsLower text)) = some eid)
    (hkey : jsTrim (jsLower text) ≠ "") (hval : eid ≠ "") :
    selectEntityId aliases ctx text opts = some eid := by
  simp [selectEntityId, resolveAlias, h, hkey, hval]

/-- Witness for C1 at a concrete alias table, snapshot and option set. -/
theorem selectEntityId_alias_precedence_witness :
    selectEntityId demoAliases zzzCtx "  Couch " (SelectOpts.mk ["light"] (some 3) (some 5)) =
      some "light.couch" :=
  selectEntityId_alias_precedence demoAliases zzzCtx "  Couch "
    (SelectOpts.mk ["light"] (some 3) (some 5)) "light.couch"
    (by decide) (by decide) (by decide)

/-- C10: the alias path of `selectEntityId` performs no existence check
against the snapshot: an alias pointing at an id that no entity carries is
returned although `getEntityById` on it yields nothing. -/
theorem selectEntityId_alias_unchecked :
    selectEntityId ghostAliases emptyCtx "ghost" (SelectOpts.mk [] none none) =
      some "light.ghost" ∧
    getEntityById emptyCtx "light.ghost" = none := by
  exact ⟨by decide, by decide⟩

theorem filterMap_full_isSome {α β : Type} (f : α → Option β) :
    ∀ l : List α, (l.filterMap f).length = l.length → ∀ a ∈ l, (f a).isSome := by
  intro l
  induction l with
  | nil => exact fun _ a ha => absurd ha (List.not_mem_nil a)
  | cons x xs ih =>
    intro h a ha
    cases hfx : f x with
    | none =>
      exfalso
      have hle := List.length_filterMap_le f xs
      simp [List.filterMap_cons, hfx] at h
      omega
    | some b =>
      simp only [List.filterMap_cons, hfx, List.length_cons] at h
      rcases List.mem_cons.mp ha with rfl | ha'
      · simp [hfx]
      · exact ih (Nat.succ_injective h) a ha'

theorem directLoop_all_resolved (aliases : List (String × String)) (ctx : HaContext)
    (trimmed normalized : String) (res : DirectResult) :
    ∀ ps : List (String × String),
      directLoop aliases ctx trimmed normalized ps = some res →
      ∃ p ∈ ps, jsStartsWith normalized p.1 = true ∧
        res.actions.length =
          (splitConjunctionTargets (jsTrim (String.mk (trimmed.data.drop p.1.length)))).length ∧
        ∀ seg ∈ splitConjunctionTargets (jsTrim (String.mk (trimmed.data.drop p.1.length))),
          (resolveSegment aliases ctx seg).isSome := by
  intro ps
  induction ps with
  | nil => intro h; simp [directLoop] at h
  | cons p rest ih =>
    intro h
    simp only [directLoop] at h
    by_cases hsw : jsStartsWith normalized p.1 = true
    · rw [if_pos hsw] at h
      by_cases hnil : directActions aliases ctx
          (splitConjunctionTargets (jsTrim (String.mk (trimmed.data.drop p.1.length)))) p.2 = []
      · rw [if_pos hnil] at h
        obtain ⟨q, hq, hrest⟩ := ih h
        exact ⟨q, List.mem_cons_of_mem p hq, hrest⟩
      · rw [if_neg hnil] at h
        by_cases hlt : (directActions aliases ctx
            (splitConjunctionTargets (jsTrim (String.mk (trimmed.data.drop p.1.length)))) p.2).length <
            (splitConjunctionTargets (jsTrim (String.mk (trimmed.data.drop p.1.length)))).length
        · rw [if_pos hlt] at h
          cases h
        · rw [if_neg hlt] at h
          refine ⟨p, List.mem_cons_self p rest, hsw, ?_, ?_⟩
          · have hres : res.actions = directActions aliases ctx
                (splitConjunctionTargets (jsTrim (String.mk (trimmed.data.drop p.1.length)))) p.2 := by
              cases h; rfl
            have hle : (directActions aliases ctx
                (splitConjunctionTargets (jsTrim (String.mk (trimmed.data.drop p.1.length)))) p.2).length ≤
                (splitConjunctionTargets (jsTrim (String.mk (trimmed.data.drop p.1.length)))).length :=
              List.length_filterMap_le _ _
            rw [hres]
            omega
          · intro seg hseg
            have hres : res.actions = directActions aliases ctx
                (splitConjunctionTargets (jsTrim (String.mk (trimmed.data.drop p.1.length)))) p.2 := by
              cases h; rfl
            have hfull : (directActions aliases ctx
                (splitConjunctionTargets (jsTrim (String.mk (trimmed.data.drop p.1.length)))) p.2).length =
                (splitConjunctionTargets (jsTrim (String.mk (trimmed.data.drop p.1.length)))).length := by
              have hle : (directActions aliases ctx
                  (splitConjunctionTargets (jsTrim (String.mk (trimmed.data.drop p.1.length)))) p.2).length ≤
                  (splitConjunctionTargets (jsTrim (String.mk (trimmed.data.drop p.1.length)))).length :=
                List.length_filterMap_le _ _
              omega
            have := filterMap_full_isSome _ _ hfull seg hseg
            simpa [Option.isSome_map] using this
    · rw [if_neg hsw] at h
      obtain ⟨q, hq, hrest⟩ := ih h
      exact ⟨q, List.mem_cons_of_mem p hq, hrest⟩

/-- C2: whenever `detectDirectAliasCommand` returns a result, the matched
pattern's conjunction segments were all resolved to valid entities and the
action list has one action per segment — a partial resolution never
surfaces as a result (the code returns null for it). -/
theorem detectDirectAliasCommand_atomic (aliases : List (String × String))
    (ctx : HaContext) (text : String) (res : DirectResult)
    (h : detectDirectAliasCommand aliases ctx text = some res) :
    ∃ p ∈ directPatterns,
      jsStartsWith (jsLower (jsTrim text)) p.1 = true ∧
      res.actions.length =
        (splitConjunctionTargets (jsTrim (String.mk ((jsTrim text).data.drop p.1.length)))).length ∧
      ∀ seg ∈ splitConjunctionTargets (jsTrim (String.mk ((jsTrim text).data.drop p.1.length))),
        (resolveSegment aliases ctx seg).isSome :=
  directLoop_all_resolved aliases ctx (jsTrim text) (jsLower (jsTrim text)) res directPatterns h

/-- Witness for C2: a fully resolving two-segment command. -/
theorem detectDirectAliasCommand_atomic_witness :
    ∃ p ∈ directPatterns,
      jsStartsWith (jsLower (jsTrim "turn on couch and wall")) p.1 = true ∧
      (DirectResult.mk
          [DirectAction.mk "light.turn_on" "light.couch" "Couch Lamp",
           DirectAction.mk "light.turn_on" "light.the_wall" "Wall Lamp"]
          "Couch Lamp, Wall Lamp turned on.").actions.length =
        (splitConjunctionTargets
          (jsTrim (String.mk ((jsTrim "turn on couch and wall").data.drop p.1.length)))).length ∧
      ∀ seg ∈ splitConjunctionTargets
          (jsTrim (String.mk ((jsTrim "turn on couch and wall").data.drop p.1.length))),
        (resolveSegment demoAliases demoCtx seg).isSome :=
  detectDirectAliasCommand_atomic demoAliases demoCtx "turn on couch and wall"
    (DirectResult.mk
      [DirectAction.mk "light.turn_on" "light.couch" "Couch Lamp",
       DirectAction.mk "light.turn_on" "light.the_wall" "Wall Lamp"]
      "Couch Lamp, Wall Lamp turned on.")
    (by decide)

theorem brightnessLoop_append (aliases : List (String × String)) (ctx : HaContext)
    (lastEntityId : Option String) (lowered : String)
    (pre post : List (List Char → Option (List Char))) (v : List Char → Option (List Char))
    (hpre : ∀ u ∈ pre, tryBrightnessPattern aliases ctx lastEntityId lowered u = none) :
    brightnessLoop aliases ctx lastEntityId lowered (pre ++ v :: post) =
      match tryBrightnessPattern aliases ctx lastEntityId lowered v with
      | none => brightnessLoop aliases ctx lastEntityId lowered post
      | some r => r := by
  induction pre with
  | nil => rfl
  | cons u us ih =>
    have hu : tryBrightnessPattern aliases ctx lastEntityId lowered u = none :=
      hpre u (List.mem_cons_self u us)
    rw [List.cons_append]
    simp only [brightnessLoop, hu]
    exact ih (fun w hw => hpre w (List.mem_cons_of_mem u hw))

theorem tryBrightnessPattern_partial_abort (aliases : List (String × String))
    (ctx : HaContext) (lastEntityId : Option String) (lowered : String)
    (v : List Char → Option (List Char)) (target : String) (digitsVal : ℕ)
    (hmatch : matchBrightnessPattern v lowered = some (target, digitsVal))
    (hnotall : "all" ∉ tokenizeForMatch (jsTrim target))
    (hmulti : 1 < (splitConjunctionTargets (jsTrim target)).length)
    (hfewer : ((splitConjunctionTargets (jsTrim target)).filterMap
        (resolveBrightnessSegment aliases ctx lastEntityId)).length <
      (splitConjunctionTargets (jsTrim target)).length) :
    tryBrightnessPattern aliases ctx lastEntityId lowered v = some none := by
  have htg : brightnessTargets aliases ctx lastEntityId (jsTrim target) =
      (splitConjunctionTargets (jsTrim target)).filterMap
        (resolveBrightnessSegment aliases ctx lastEntityId) := by
    unfold brightnessTargets
    simp [hnotall]
  simp only [tryBrightnessPattern, hmatch, brightnessBody, htg]
  rw [if_pos]
  refine ⟨by simp [hnotall], hmulti, hfewer⟩

/-- C3: a non-group (no "all" token) brightness command splitting into
more than one conjunction segment for which fewer targets than segments
resolve makes `detectBrightnessCommand` return null rather than a partial
action list.  The hypotheses pin down the pattern that matches (every
earlier pattern having fallen through) and the partial resolution. -/
theorem detectBrightnessCommand_partial_abort
    (aliases : List (String × String)) (ctx : HaContext) (lastEntityId : Option String)
    (text : String) (pre post : List (List Char → Option (List Char)))
    (v : List Char → Option (List Char)) (target : String) (digitsVal : ℕ)
    (hsplit : brightnessVerbMatchers = pre ++ v :: post)
    (hpre : ∀ u ∈ pre,
      tryBrightnessPattern aliases ctx lastEntityId (jsTrim (jsLower text)) u = none)
    (hmatch : matchBrightnessPattern v (jsTrim (jsLower text)) = some (target, digitsVal))
    (hnotall : "all" ∉ tokenizeForMatch (jsTrim target))
    (hmulti : 1 < (splitConjunctionTargets (jsTrim target)).length)
    (hfewer : ((splitConjunctionTargets (jsTrim target)).filterMap
        (resolveBrightnessSegment aliases ctx lastEntityId)).length <
      (splitConjunctionTargets (jsTrim target)).length) :
    detectBrightnessCommand aliases ctx lastEntityId text = none := by
  unfold detectBrightnessCommand
  rw [hsplit, brightnessLoop_append aliases ctx lastEntityId (jsTrim (jsLower text)) pre post v hpre,
    tryBrightnessPattern_partial_abort aliases ctx lastEntityId (jsTrim (jsLower text)) v
      target digitsVal hmatch hnotall hmulti hfewer]

/-- Witness for C3: "couch" resolves via its alias, "wall" resolves to
nothing, so the two-segment command aborts. -/
theorem detectBrightnessCommand_partial_abort_witness :
    detectBrightnessCommand partialAliases demoCtx none "set couch and wall to 50" = none :=
  detectBrightnessCommand_partial_abort partialAliases demoCtx none
    "set couch and wall to 50" [] [verbSetBrightnessOf, verbDimBrighten]
    verbSetTurnSwitch "couch and wall" 50 rfl (by intro u hu; cases hu)
    (by decide) (by decide) (by decide) (by decide)

theorem clampPercent_mem (v : ℤ) : 0 ≤ clampPercent v ∧ clampPercent v ≤ 100 := by
  unfold clampPercent
  split_ifs <;> omega

theorem tryBrightnessPattern_clamped (aliases : List (String × String))
    (ctx : HaContext) (lastEntityId : Option String) (lowered : String)
    (v : List Char → Option (List Char)) (r : BrightResult)
    (h : tryBrightnessPattern aliases ctx lastEntityId lowered v = some (some r)) :
    ∀ a ∈ r.actions, ∃ dv : ℕ, a.brightness_pct = clampPercent (dv : ℤ) := by
  cases hm : matchBrightnessPattern v lowered with
  | none =>
    simp only [tryBrightnessPattern, hm] at h
    exact Option.noConfusion h
  | some td =>
    obtain ⟨target, digitsVal⟩ := td
    simp only [tryBrightnessPattern, hm, brightnessBody] at h
    split at h
    · exact absurd h (by simp)
    · split at h
      · exact absurd h (by simp)
      · rename_i d ds hds
        rw [Option.some.injEq, Option.some.injEq] at h
        subst h
        intro a ha
        simp only [List.map_cons, List.mem_cons, List.mem_map] at ha
        rcases ha with rfl | ⟨e, _, rfl⟩
        · exact ⟨digitsVal, rfl⟩
        · exact ⟨digitsVal, rfl⟩

theorem brightnessLoop_some (aliases : List (String × String)) (ctx : HaContext)
    (lastEntityId : Option String) (lowered : String) :
    ∀ (ps : List (List Char → Option (List Char))) (r : BrightResult),
      brightnessLoop aliases ctx lastEntityId lowered ps = some r →
      ∃ v ∈ ps, tryBrightnessPattern aliases ctx lastEntityId lowered v = some (some r) := by
  intro ps
  induction ps with
  | nil => intro r h; cases h
  | cons v rest ih =>
    intro r h
    cases hv : tryBrightnessPattern aliases ctx lastEntityId lowered v with
    | none =>
      simp only [brightnessLoop, hv] at h
      obtain ⟨w, hw, hres⟩ := ih r h
      exact ⟨w, List.mem_cons_of_mem v hw, hres⟩
    | some rr =>
      simp only [brightnessLoop, hv] at h
      exact ⟨v, List.mem_cons_self v rest, by rw [hv, h]⟩

/-- C7 (amended): every action of every returned brightness intent carries
a `brightness_pct` in [0, 100]; the clamp sends 150 to 100 and −5 to 0;
a non-numeric value leaves the pattern unmatched.  The input text
"… to -5", however, can never reach the clamp: the digit-only capture
rejects the minus sign, so that command does not match at all (see the
counterexample). -/
theorem detectBrightnessCommand_value_clamped (aliases : List (String × String))
    (ctx : HaContext) (lastEntityId : Option String) (text : String)
    (res : BrightResult)
    (h : detectBrightnessCommand aliases ctx lastEntityId text = some res) :
    (∀ a ∈ res.actions, 0 ≤ a.brightness_pct ∧ a.brightness_pct ≤ 100) ∧
    clampPercent (-5) = 0 ∧ clampPercent 150 = 100 ∧
    matchBrightnessPattern verbSetTurnSwitch (jsTrim (jsLower "set couch to high")) = none := by
  refine ⟨?_, by decide, by decide, by decide⟩
  intro a ha
  obtain ⟨v, hv, htry⟩ :=
    brightnessLoop_some aliases ctx lastEntityId (jsTrim (jsLower text)) brightnessVerbMatchers res h
  obtain ⟨dv, hdv⟩ := tryBrightnessPattern_clamped aliases ctx lastEntityId
    (jsTrim (jsLower text)) v res htry a ha
  rw [hdv]
  exact clampPercent_mem _

/-- Witness for C7: "set couch to 150" produces one action clamped to
`brightness_pct = 100`. -/
theorem detectBrightnessCommand_value_clamped_witness :
    (∀ a ∈ (BrightResult.mk
        [BrightAction.mk "light.turn_on" "light.couch" 100 "Couch Lamp"]
        "Couch Lamp set to 100%").actions,
      0 ≤ a.brightness_pct ∧ a.brightness_pct ≤ 100) ∧
    clampPercent (-5) = 0 ∧ clampPercent 150 = 100 ∧
    matchBrightnessPattern verbSetTurnSwitch (jsTrim (jsLower "set couch to high")) = none :=
  detectBrightnessCommand_value_clamped partialAliases demoCtx none "set couch to 150"
    (BrightResult.mk [BrightAction.mk "light.turn_on" "light.couch" 100 "Couch Lamp"]
      "Couch Lamp set to 100%")
    (by decide)

/-- Counterexample to C7 as stated: with a registry and alias table in
which "set couch to 50" produces an action, "set couch to -5" produces no
intent at all (null) — not an action list with `brightness_pct = 0`. -/
theorem detectBrightnessCommand_minus5_counterexample :
    detectBrightnessCommand partialAliases demoCtx none "set couch to -5" = none ∧
    detectBrightnessCommand partialAliases demoCtx none "set couch to 50" =
      some (BrightResult.mk [BrightAction.mk "light.turn_on" "light.couch" 50 "Couch Lamp"]
        "Couch Lamp set to 50%") :=
  ⟨by decide, by decide⟩

theorem tokenStep_nameMatchCount (nt it at' : List String)
    (idf : String → Option ℚ) (st : TokenStats) (token : String) :
    (tokenStep nt it at' idf st token).nameMatchCount =
      st.nameMatchCount + (if nt.contains token then 1 else 0) := by
  unfold tokenStep
  split_ifs <;> rfl

theorem foldl_tokenStep_nameMatchCount (nt it at' : List String)
    (idf : String → Option ℚ) :
    ∀ (tokens : List String) (st : TokenStats),
      (tokens.foldl (tokenStep nt it at' idf) st).nameMatchCount =
        st.nameMatchCount + (tokens.filter (fun t => nt.contains t)).length := by
  intro tokens
  induction tokens with
  | nil => intro st; simp
  | cons t ts ih =>
    intro st
    rw [List.foldl_cons, ih, tokenStep_nameMatchCount, List.filter_cons]
    by_cases hc : nt.contains t = true
    · simp only [hc, if_true, List.length_cons]
      omega
    · simp only [hc, if_false]
      rw [Bool.not_eq_true] at hc
      simp [hc]

theorem nameMatchCountOf_eq (entity : Entity) (tokens : List String)
    (tokenIdf : String → Option ℚ) :
    nameMatchCountOf entity tokens tokenIdf =
      (tokens.filter
        (fun t => (tokenizeForMatch (jsLower entity.name)).contains t)).length := by
  unfold nameMatchCountOf tokenLoop
  rw [foldl_tokenStep_nameMatchCount]
  simp

theorem completenessBonus_le (nameTokensLen c : ℕ) (h : c ≤ nameTokensLen) :
    completenessBonus nameTokensLen c ≤ 5 := by
  unfold completenessBonus
  split_ifs with hcond
  · obtain ⟨hL, _⟩ := hcond
    have hL' : (0 : ℚ) < nameTokensLen := by exact_mod_cast hL
    have hdiv : (c : ℚ) / nameTokensLen ≤ 1 := by
      rw [div_le_one hL']
      exact_mod_cast h
    calc ((c : ℚ) / nameTokensLen) * 5 ≤ 1 * 5 :=
          mul_le_mul_of_nonneg_right hdiv (by norm_num)
      _ = 5 := by norm_num
  · norm_num

theorem nodup_filter_contains_le (tokens nt : List String) (h : tokens.Nodup) :
    (tokens.filter (fun t => nt.contains t)).length ≤ nt.length := by
  have hnd : (tokens.filter (fun t => nt.contains t)).Nodup := h.filter _
  have hsub : (tokens.filter (fun t => nt.contains t)) ⊆ nt := by
    intro x hx
    have hmem := List.of_mem_filter hx
    simpa using hmem
  exact (hnd.subperm hsub).length_le

/-- C6 (amended): the completeness signal adds exactly
`(nameMatchCount / #nameTokens) · 5` where `nameMatchCount` counts the
query tokens found among the entity's name tokens **with multiplicity**;
for a duplicate-free query token list this count is the number of distinct
name-token values matched and the contribution never exceeds 5.  (With
duplicated query tokens the code exceeds 5 — see the counterexample.) -/
theorem scoreEntity_completeness (entity : Entity) (tokens : List String)
    (opts : ScoreOpts) (hnodup : tokens.Nodup) :
    scoreEntity entity tokens opts =
      scoreEntityBase entity tokens opts +
        completenessBonus (tokenizeForMatch (jsLower entity.name)).length
          (nameMatchCountOf entity tokens opts.tokenIdf) ∧
    nameMatchCountOf entity tokens opts.tokenIdf =
      (tokens.filter
        (fun t => (tokenizeForMatch (jsLower entity.name)).contains t)).length ∧
    completenessBonus (tokenizeForMatch (jsLower entity.name)).length
      (nameMatchCountOf entity tokens opts.tokenIdf) ≤ 5 := by
  refine ⟨rfl, nameMatchCountOf_eq entity tokens opts.tokenIdf, ?_⟩
  rw [nameMatchCountOf_eq]
  exact completenessBonus_le _ _
    (nodup_filter_contains_le tokens (tokenizeForMatch (jsLower entity.name)) hnodup)

/-- Witness for C6 at a concrete entity and duplicate-free query. -/
theorem scoreEntity_completeness_witness :
    scoreEntity kitchenEntity ["kitchen"] (ScoreOpts.mk [] (fun _ => none)) =
      scoreEntityBase kitchenEntity ["kitchen"] (ScoreOpts.mk [] (fun _ => none)) +
        completenessBonus (tokenizeForMatch (jsLower kitchenEntity.name)).length
          (nameMatchCountOf kitchenEntity ["kitchen"]
            (ScoreOpts.mk [] (fun _ => none)).tokenIdf) ∧
    nameMatchCountOf kitchenEntity ["kitchen"]
        (ScoreOpts.mk [] (fun _ => none)).tokenIdf =
      (["kitchen"].filter
        (fun t => (tokenizeForMatch (jsLower kitchenEntity.name)).contains t)).length ∧
    completenessBonus (tokenizeForMatch (jsLower kitchenEntity.name)).length
      (nameMatchCountOf kitchenEntity ["kitchen"]
        (ScoreOpts.mk [] (fun _ => none)).tokenIdf) ≤ 5 :=
  scoreEntity_completeness kitchenEntity ["kitchen"]
    (ScoreOpts.mk [] (fun _ => none)) (by decide)

/-- Counterexample to C6 as stated: against an entity whose name has one
token, the duplicated query ["kitchen","kitchen","kitchen"] makes the
completeness signal contribute 15 — thrice the claimed distinct-match
value 5 and above the claimed bound — and the total score becomes 30. -/
theorem scoreEntity_completeness_counterexample :
    completenessBonus (tokenizeForMatch (jsLower kitchenEntity.name)).length
        (nameMatchCountOf kitchenEntity ["kitchen", "kitchen", "kitchen"] (fun _ => none)) =
      15 ∧
    scoreEntity kitchenEntity ["kitchen", "kitchen", "kitchen"]
        (ScoreOpts.mk [] (fun _ => none)) = 30 :=
  ⟨by with_unfolding_all decide, by with_unfolding_all decide⟩

theorem dedupeTake_sublist (limit : ℕ) :
    ∀ (xs : List Candidate) (seen : List String) (len : ℕ),
      (dedupeTake limit xs seen len).Sublist xs := by
  intro xs
  induction xs with
  | nil => intro seen len; exact List.Sublist.refl []
  | cons c rest ih =>
    intro seen len
    unfold dedupeTake
    split_ifs with h1 h2
    · exact (ih seen len).cons c
    · exact (List.nil_sublist rest).cons₂ c
    · exact (ih _ _).cons₂ c

theorem dedupeTake_fresh_nodup (limit : ℕ) :
    ∀ (xs : List Candidate) (seen : List String) (len : ℕ),
      (∀ c ∈ dedupeTake limit xs seen len, c.entity.entity_id ∉ seen) ∧
      ((dedupeTake limit xs seen len).map (fun c => c.entity.entity_id)).Nodup := by
  intro xs
  induction xs with
  | nil =>
    intro seen len
    exact ⟨fun c hc => absurd hc (List.not_mem_nil c), List.nodup_nil⟩
  | cons c rest ih =>
    intro seen len
    unfold dedupeTake
    split_ifs with h1 h2
    · exact ih seen len
    · refine ⟨?_, by simp⟩
      intro d hd
      rcases List.mem_singleton.mp hd with rfl
      simpa using h1
    · refine ⟨?_, ?_⟩
      · intro d hd
        rcases List.mem_cons.mp hd with rfl | hd'
        · simpa using h1
        · have hfresh := (ih (c.entity.entity_id :: seen) (len + 1)).1 d hd'
          intro hmem
          exact hfresh (List.mem_cons_of_mem _ hmem)
      · rw [List.map_cons]
        refine List.nodup_cons.mpr ⟨?_, (ih _ _).2⟩
        intro hmem
        obtain ⟨d, hd, hd_eq⟩ := List.mem_map.mp hmem
        have hfresh := (ih (c.entity.entity_id :: seen) (len + 1)).1 d hd
        exact hfresh (hd_eq ▸ List.mem_cons_self _ _)

theorem dedupeTake_length (limit : ℕ) :
    ∀ (xs : List Candidate) (seen : List String) (len : ℕ), len < limit →
      (dedupeTake limit xs seen len).length ≤ limit - len := by
  intro xs
  induction xs with
  | nil => intro seen len h; simp [dedupeTake]
  | cons c rest ih =>
    intro seen len h
    unfold dedupeTake
    split_ifs with h1 h2
    · exact ih seen len h
    · simpa using Nat.le_sub_of_add_le (by omega)
    · have hrec := ih (c.entity.entity_id :: seen) (len + 1) (by omega)
      simp only [List.length_cons]
      omega

theorem dedupeTake_ne_nil (limit : ℕ) (c : Candidate) (rest : List Candidate) :
    dedupeTake limit (c :: rest) [] 0 ≠ [] := by
  unfold dedupeTake
  split_ifs with h1 h2
  · simp at h1
  · simp
  · simp

theorem scoredList_sorted (ctx : HaContext) (tokens preferredDomains : List String) :
    List.Pairwise candOrder (scoredList ctx tokens preferredDomains) :=
  List.sorted_insertionSort candOrder _

theorem scoredList_pos (ctx : HaContext) (tokens preferredDomains : List String) :
    ∀ c ∈ scoredList ctx tokens preferredDomains, 0 < c.score := by
  intro c hc
  have hmem := (List.perm_insertionSort candOrder
    ((ctx.searchIndex.map
        (fun e => Candidate.mk e (scoreEntity e tokens ⟨preferredDomains, ctx.tokenIdf⟩))).filter
      (fun c => 0 < c.score))).mem_iff.mp hc
  exact of_decide_eq_true (List.mem_filter.mp hmem).2

/-- C4 (amended): the candidate search returns empty when no query token
survives stop-word filtering; whenever the scored list is non-empty the
result has only strictly positive scores, is sorted by descending score
with ties broken by ascending name, repeats no entity id and is truncated
to `limit`; when the scored list is empty (the substring-fallback régime)
every returned score is 0.5 and the length is still bounded by `limit`,
but the list is in search-index order and need not be name-sorted (see
the counterexample). -/
theorem findEntityCandidates_spec (ctx : HaContext) (text : String) (limit : ℕ)
    (preferredDomains : List String) (hlimit : 1 ≤ limit) :
    (queryTokens text = [] → findEntityCandidates ctx text limit preferredDomains = []) ∧
    (scoredList ctx (queryTokens text) preferredDomains ≠ [] →
      (∀ c ∈ findEntityCandidates ctx text limit preferredDomains, 0 < c.score) ∧
      List.Pairwise candOrder (findEntityCandidates ctx text limit preferredDomains) ∧
      ((findEntityCandidates ctx text limit preferredDomains).map
        (fun c => c.entity.entity_id)).Nodup ∧
      (findEntityCandidates ctx text limit preferredDomains).length ≤ limit) ∧
    (scoredList ctx (queryTokens text) preferredDomains = [] →
      (∀ c ∈ findEntityCandidates ctx text limit preferredDomains, c.score = 1 / 2) ∧
      (findEntityCandidates ctx text limit preferredDomains).length ≤ limit) := by
  refine ⟨?_, ?_, ?_⟩
  · intro h
    by_cases h0 : text = "" ∨ ctx.searchIndex = []
    · simp [findEntityCandidates, h0]
    · simp [findEntityCandidates, h0, h]
  · intro hne
    by_cases h0 : text = "" ∨ ctx.searchIndex = []
    · have hres : findEntityCandidates ctx text limit preferredDomains = [] := by
        simp [findEntityCandidates, h0]
      rw [hres]
      exact ⟨by simp, by simp, by simp, by simp⟩
    · by_cases htok : queryTokens text = []
      · have hres : findEntityCandidates ctx text limit preferredDomains = [] := by
          simp [findEntityCandidates, h0, htok]
        rw [hres]
        exact ⟨by simp, by simp, by simp, by simp⟩
      · have hres : findEntityCandidates ctx text limit preferredDomains =
            dedupeTake limit (scoredList ctx (queryTokens text) preferredDomains) [] 0 := by
          obtain ⟨c, cs, hcs⟩ := List.exists_cons_of_ne_nil hne
          obtain ⟨u, us, hu⟩ : ∃ u us,
              dedupeTake limit (scoredList ctx (queryTokens text) preferredDomains) [] 0 =
                u :: us := by
            rcases hq : dedupeTake limit
                (scoredList ctx (queryTokens text) preferredDomains) [] 0 with _ | ⟨u, us⟩
            · rw [hcs] at hq
              exact absurd hq (dedupeTake_ne_nil limit c cs)
            · exact ⟨u, us, rfl⟩
          simp [findEntityCandidates, h0, htok, hu]
        rw [hres]
        refine ⟨?_, ?_, ?_, ?_⟩
        · intro c hc
          exact scoredList_pos ctx (queryTokens text) preferredDomains c
            ((dedupeTake_sublist limit _ [] 0).subset hc)
        · exact List.Pairwise.sublist (dedupeTake_sublist limit _ [] 0)
            (scoredList_sorted ctx (queryTokens text) preferredDomains)
        · exact (dedupeTake_fresh_nodup limit _ [] 0).2
        · have := dedupeTake_length limit
            (scoredList ctx (queryTokens text) preferredDomains) [] 0 (by omega)
          omega
  · intro hsc
    by_cases h0 : text = "" ∨ ctx.searchIndex = []
    · have hres : findEntityCandidates ctx text limit preferredDomains = [] := by
        simp [findEntityCandidates, h0]
      rw [hres]
      exact ⟨by simp, by simp⟩
    · by_cases htok : queryTokens text = []
      · have hres : findEntityCandidates ctx text limit preferredDomains = [] := by
          simp [findEntityCandidates, h0, htok]
        rw [hres]
        exact ⟨by simp, by simp⟩
      · rcases hq : queryTokens text with _ | ⟨t, ts⟩
        · exact absurd hq htok
        · rw [hq] at hsc
          cases ts with
          | nil =>
            have hres : findEntityCandidates ctx text limit preferredDomains =
                ((ctx.searchIndex.filter (fun e => jsIncludes e.entity_id t)).take limit).map
                  (fun e => Candidate.mk e (1 / 2)) := by
              simp [findEntityCandidates, h0, htok, hq, hsc, dedupeTake]
            rw [hres]
            constructor
            · intro c hc
              obtain ⟨e, _, rfl⟩ := List.mem_map.mp hc
              rfl
            · rw [List.length_map]
              exact le_trans (List.length_take_le limit _) (le_refl limit)
          | cons t2 ts2 =>
            have hres : findEntityCandidates ctx text limit preferredDomains = [] := by
              simp [findEntityCandidates, h0, htok, hq, hsc, dedupeTake]
            rw [hres]
            exact ⟨by simp, by simp⟩

/-- Witness for C4 at a concrete snapshot, query and limit. -/
theorem findEntityCandidates_spec_witness :
    (queryTokens "zzz" = [] → findEntityCandidates zzzCtx "zzz" 8 [] = []) ∧
    (scoredList zzzCtx (queryTokens "zzz") [] ≠ [] →
      (∀ c ∈ findEntityCandidates zzzCtx "zzz" 8 [], 0 < c.score) ∧
      List.Pairwise candOrder (findEntityCandidates zzzCtx "zzz" 8 []) ∧
      ((findEntityCandidates zzzCtx "zzz" 8 []).map (fun c => c.entity.entity_id)).Nodup ∧
      (findEntityCandidates zzzCtx "zzz" 8 []).length ≤ 8) ∧
    (scoredList zzzCtx (queryTokens "zzz") [] = [] →
      (∀ c ∈ findEntityCandidates zzzCtx "zzz" 8 [], c.score = 1 / 2) ∧
      (findEntityCandidates zzzCtx "zzz" 8 []).length ≤ 8) :=
  findEntityCandidates_spec zzzCtx "zzz" 8 [] (by decide)

/-- Counterexample to C4 as stated: the single-token substring fallback
returns both entities with tied scores 0.5 in search-index order, names
descending — not sorted by the claimed ascending-name tie-break. -/
theorem findEntityCandidates_fallback_not_sorted :
    findEntityCandidates zzzCtx "zzz" 8 [] =
      [Candidate.mk bravoEntity (1 / 2), Candidate.mk alphaEntity (1 / 2)] ∧
    ¬ List.Pairwise candOrder (findEntityCandidates zzzCtx "zzz" 8 []) :=
  ⟨by with_unfolding_all decide, by with_unfolding_all decide⟩

/-- C9: when exactly one query token survives filtering and the scored
candidate list is empty, the result is exactly the entities whose id
contains the token as a substring, each scored 0.5, truncated to `limit`. -/
theorem findEntityCandidates_substring_fallback (ctx : HaContext) (text : String)
    (limit : ℕ) (preferredDomains : List String) (t : String)
    (htok : queryTokens text = [t])
    (hscored : scoredList ctx (queryTokens text) preferredDomains = []) :
    findEntityCandidates ctx text limit preferredDomains =
      ((ctx.searchIndex.filter (fun e => jsIncludes e.entity_id t)).take limit).map
        (fun e => Candidate.mk e (1 / 2)) := by
  have htext : text ≠ "" := by
    intro h
    rw [h] at htok
    exact List.noConfusion htok
  by_cases hidx : ctx.searchIndex = []
  · simp [findEntityCandidates, hidx]
  · have h0 : ¬ (text = "" ∨ ctx.searchIndex = []) := by tauto
    rw [htok] at hscored
    simp [findEntityCandidates, h0, htok, hscored, dedupeTake]

/-- Witness for C9: the token "zzz" matches no token of either entity but
is a substring of both entity ids. -/
theorem findEntityCandidates_substring_fallback_witness :
    findEntityCandidates zzzCtx "zzz" 8 [] =
      ((zzzCtx.searchIndex.filter (fun e => jsIncludes e.entity_id "zzz")).take 8).map
        (fun e => Candidate.mk e (1 / 2)) :=
  findEntityCandidates_substring_fallback zzzCtx "zzz" 8 [] "zzz" (by decide)
    (by with_unfolding_all decide)

/-- C5: the IDF table assigns each stored token the weight
`clamp(log₂(N / df), 0.5, 10)`; every stored weight lies in [0.5, 10], and
a token with strictly smaller document frequency never receives a smaller
weight than one with larger frequency. -/
theorem buildTokenIdf_spec (searchIndex : List Entity) (A B : String)
    (hA : docFreq searchIndex A ≠ 0) (hB : docFreq searchIndex B ≠ 0)
    (hAB : docFreq searchIndex A < docFreq searchIndex B) :
    buildTokenIdf searchIndex A = some (idfWeight searchIndex A) ∧
    1 / 2 ≤ idfWeight searchIndex A ∧ idfWeight searchIndex A ≤ 10 ∧
    buildTokenIdf searchIndex B = some (idfWeight searchIndex B) ∧
    idfWeight searchIndex B ≤ idfWeight searchIndex A := by
  refine ⟨by simp [buildTokenIdf, hA], le_max_left _ _,
    max_le (by norm_num) (min_le_right _ _), by simp [buildTokenIdf, hB], ?_⟩
  unfold idfWeight
  have hN : (0 : ℝ) < (totalEntities searchIndex : ℝ) := by
    unfold totalEntities
    split_ifs with h
    · norm_num
    · exact_mod_cast Nat.pos_of_ne_zero h
  have hApos : (0 : ℝ) < (docFreq searchIndex A : ℝ) := by
    exact_mod_cast Nat.pos_of_ne_zero hA
  have hBpos : (0 : ℝ) < (docFreq searchIndex B : ℝ) := by
    exact_mod_cast Nat.pos_of_ne_zero hB
  have harg : (totalEntities searchIndex : ℝ) / (docFreq searchIndex B : ℝ) ≤
      (totalEntities searchIndex : ℝ) / (docFreq searchIndex A : ℝ) :=
    (div_le_div_iff_of_pos_left hN hBpos hApos).mpr (by exact_mod_cast hAB.le)
  have hlog : Real.logb 2 ((totalEntities searchIndex : ℝ) / (docFreq searchIndex B : ℝ)) ≤
      Real.logb 2 ((totalEntities searchIndex : ℝ) / (docFreq searchIndex A : ℝ)) :=
    (Real.logb_le_logb (by norm_num) (div_pos hN hBpos) (div_pos hN hApos)).mpr harg
  exact max_le_max (le_refl _) (min_le_min hlog (le_refl _))

/-- Witness for C5: in a two-entity corpus, "beta" (df 1) is rarer than
"alpha" (df 2). -/
theorem buildTokenIdf_spec_witness :
    buildTokenIdf alphaBetaIndex "beta" = some (idfWeight alphaBetaIndex "beta") ∧
    1 / 2 ≤ idfWeight alphaBetaIndex "beta" ∧ idfWeight alphaBetaIndex "beta" ≤ 10 ∧
    buildTokenIdf alphaBetaIndex "alpha" = some (idfWeight alphaBetaIndex "alpha") ∧
    idfWeight alphaBetaIndex "alpha" ≤ idfWeight alphaBetaIndex "beta" :=
  buildTokenIdf_spec alphaBetaIndex "beta" "alpha" (by decide) (by decide) (by decide)

/-- C8 (amended): when the first brightness pattern matches and the target
tokens include "all", the detector operates in group mode and produces
exactly one `light.turn_on` action per **candidate** dimmable light — the
dimmable lights among the top-50 scored candidates for the filtered query
whose normalized text or lowered entity id contains every remaining filter
token.  A dimmable light of the snapshot outside that candidate list (for
instance when every filter token is a stop word, so candidate search
returns nothing) is silently missed — see the counterexample. -/
theorem detectBrightnessCommand_group_mode (aliases : List (String × String))
    (ctx : HaContext) (lastEntityId : Option String) (text : String)
    (target : String) (digitsVal : ℕ)
    (hmatch : matchBrightnessPattern verbSetTurnSwitch (jsTrim (jsLower text)) =
      some (target, digitsVal))
    (hall : "all" ∈ tokenizeForMatch (jsTrim target))
    (hne : groupModeActions ctx (jsTrim target) (clampPercent (digitsVal : ℤ)) ≠ []) :
    detectBrightnessCommand aliases ctx lastEntityId text =
      some (groupModeResult ctx (jsTrim target) (clampPercent (digitsVal : ℤ))) := by
  have hallb : (tokenizeForMatch (jsTrim target)).contains "all" = true := by
    simpa using hall
  have htry : tryBrightnessPattern aliases ctx lastEntityId (jsTrim (jsLower text))
      verbSetTurnSwitch = brightnessBody aliases ctx lastEntityId target digitsVal := by
    simp [tryBrightnessPattern, hmatch]
  have hdimeq : (dedupeEntities
        (brightnessTargets aliases ctx lastEntityId (jsTrim target)) []).filter
      (fun e => e.supportsBrightness) = groupDimmable ctx (jsTrim target) := by
    unfold brightnessTargets groupDimmable
    simp [hall]
  have hbody : brightnessBody aliases ctx lastEntityId target digitsVal =
      some (some (groupModeResult ctx (jsTrim target) (clampPercent (digitsVal : ℤ)))) := by
    simp only [brightnessBody, hallb, if_true]
    rw [if_neg (by simp), hdimeq]
    cases hdim : groupDimmable ctx (jsTrim target) with
    | nil =>
      exfalso
      apply hne
      simp [groupModeActions, hdim]
    | cons d ds =>
      simp [groupModeResult, groupModeActions, hdim, List.length_map]
  rw [show detectBrightnessCommand aliases ctx lastEntityId text =
        brightnessLoop aliases ctx lastEntityId (jsTrim (jsLower text))
          brightnessVerbMatchers from rfl,
    show brightnessVerbMatchers =
      verbSetTurnSwitch :: [verbSetBrightnessOf, verbDimBrighten] from rfl]
  simp only [brightnessLoop, htry, hbody]

/-- Witness for C8, mirroring the spec's Scenario D: three dimmable
kitchen lights and one kitchen switch; "set all kitchen lights to 20"
yields the three light actions, excluding the switch. -/
theorem detectBrightnessCommand_group_mode_witness :
    detectBrightnessCommand [] kitchenCtx none "set all kitchen lights to 20" =
      some (groupModeResult kitchenCtx (jsTrim "all kitchen lights")
        (clampPercent ((20 : ℕ) : ℤ))) :=
  detectBrightnessCommand_group_mode [] kitchenCtx none "set all kitchen lights to 20"
    "all kitchen lights" 20 (by with_unfolding_all decide) (by decide)
    (by with_unfolding_all decide)

/-- Counterexample to C8 as stated: the snapshot's only entity is a
brightness-capable light whose normalized text contains the sole remaining
filter token "the", yet the command produces no action at all, because the
candidate search drops "the" as a stop word and returns no candidates. -/
theorem detectBrightnessCommand_group_mode_counterexample :
    wallEntity.domain = "light" ∧ wallEntity.supportsBrightness = true ∧
    wallEntity ∈ theWallCtx.searchIndex ∧
    (tokenizeForMatch "all the lamps").filter (fun t => !fillerTokens.contains t) = ["the"] ∧
    jsIncludes wallEntity.normalized "the" = true ∧
    detectBrightnessCommand [] theWallCtx none "set all the lamps to 20" = none :=
  ⟨rfl, rfl, by decide, by decide, by decide, by with_unfolding_all decide⟩
